import Mathlib

/-!
Shallow embedding of the `apns-worker` library core (`apns_worker/data.py`,
`apns_worker/apns.py`, `apns_worker/queue.py`, `apns_worker/backend/*.py`).

Bytes are modelled as `Nat` values (< 256 on the wire), byte strings as
`List Nat`, text as `List Char`, and instants (`datetime.datetime`) as `Int`
seconds.  Fallible Python code (constructors that raise) returns `Option`.
-/

namespace ApnsWorker

/-! ## struct.pack / struct.unpack helpers (big-endian, as used by the source) -/

/-- `pack('!B', n)`: one byte. -/
def pack_u8 (n : Nat) : List Nat := [n % 256]

/-- `pack('!H', n)`: two bytes, big-endian. -/
def pack_u16be (n : Nat) : List Nat := [n / 256 % 256, n % 256]

/-- `pack('!I', n)`: four bytes, big-endian. -/
def pack_u32be (n : Nat) : List Nat :=
  [n / 16777216 % 256, n / 65536 % 256, n / 256 % 256, n % 256]

/-- `pack('!Ns', b)`: exactly `n` bytes; shorter input is zero-padded on the
right, longer input is truncated (CPython `struct` semantics for `s`). -/
def pack_bytes (n : Nat) (b : List Nat) : List Nat :=
  b.take n ++ List.replicate (n - b.length) 0

/-- `unpack('!H', b)` on an exact 2-byte slice. -/
def unpack_u16be (b : List Nat) : Nat := b.foldl (fun acc x => acc * 256 + x) 0

/-- `unpack('!I', b)` on an exact 4-byte slice. -/
def unpack_u32be (b : List Nat) : Nat := b.foldl (fun acc x => acc * 256 + x) 0

/-! ## binascii.hexlify / unhexlify -/

/-- Lower-case hex digit for a value < 16. -/
def hexDigit (n : Nat) : Char :=
  if n < 10 then Char.ofNat (48 + n) else Char.ofNat (87 + n)

/-- `binascii.hexlify`: two lower-case hex digits per byte. -/
def hexlify (b : List Nat) : List Char :=
  b.flatMap (fun x => [hexDigit (x / 16), hexDigit (x % 16)])

/-- Value of one hex digit character, `none` for a non-hex-digit. -/
def hexDigitVal (c : Char) : Option Nat :=
  if 48 ≤ c.toNat ∧ c.toNat ≤ 57 then some (c.toNat - 48)
  else if 97 ≤ c.toNat ∧ c.toNat ≤ 102 then some (c.toNat - 87)
  else if 65 ≤ c.toNat ∧ c.toNat ≤ 70 then some (c.toNat - 55)
  else none

/-- `binascii.unhexlify`: fails on odd length or a non-hex-digit character. -/
def unhexlify : List Char → Option (List Nat)
  | [] => some []
  | [_] => none
  | c1 :: c2 :: rest => do
      let hi ← hexDigitVal c1
      let lo ← hexDigitVal c2
      let r ← unhexlify rest
      pure ((hi * 16 + lo) :: r)

end ApnsWorker

namespace ApnsWorker

/-! ## apns.py: Message -/

/-- `apns.Message` after `_validate` has run: the cached encoded fields.
The JSON payload serialisation is kept abstract (the already-encoded payload
bytes are carried); tokens are stored decoded. -/
structure Message where
  encodedTokens : List (List Nat)
  encodedPayload : List Nat
  encodedExpiration : Option Nat
  priority : Option Int
deriving DecidableEq, Repr

/-- `Message._validate_priority`: `None` or an integer in `range(0, 256)`. -/
def priorityOk (p : Option Int) : Prop :=
  match p with
  | none => True
  | some x => 0 ≤ x ∧ x < 256

instance (p : Option Int) : Decidable (priorityOk p) := by
  unfold priorityOk; exact match p with
  | none => inferInstanceAs (Decidable True)
  | some _ => inferInstanceAs (Decidable (_ ∧ _))

/-- `Message._validate_tokens`: `list(map(unhexlify, self._tokens))`, with
the first invalid token aborting construction. -/
def validateTokens : List (List Char) → Option (List (List Nat))
  | [] => some []
  | t :: ts => do
      let e ← unhexlify t
      let rest ← validateTokens ts
      pure (e :: rest)

/-- `Message.__init__` + `_validate`: decodes every token with `unhexlify`
(raising on invalid hex) and validates the priority.  Payload serialisation
and expiration encoding are taken as already-computed inputs. -/
def mkMessage (tokens : List (List Char)) (payloadBytes : List Nat)
    (expiration : Option Nat) (priority : Option Int) : Option Message :=
  match validateTokens tokens with
  | none => none
  | some encs =>
      if priorityOk priority then
        some ⟨encs, payloadBytes, expiration, priority⟩
      else none

/-! ## data.py: Notification and frame encoding -/

/-- `data.Notification`: `(message, encoded_token, ident)`. -/
structure Notification where
  message : Message
  encodedToken : List Nat
  ident : Option Nat
deriving DecidableEq, Repr

/-- `Notification.token`: the hex-encoded token. -/
def Notification.token (nt : Notification) : List Char := hexlify nt.encodedToken

/-- `Notification._pack_data`: `<id><u16 len><data>`, or empty when absent. -/
def packData (itemId : Nat) (data : Option (List Nat)) : List Nat :=
  match data with
  | none => []
  | some d => pack_u8 itemId ++ pack_u16be d.length ++ d

/-- The `content` local of `Notification.frame`: the item sequence. -/
def frameContent (nt : Notification) : List Nat :=
  (pack_u8 1 ++ pack_u16be 32 ++ pack_bytes 32 nt.encodedToken) ++
  packData 2 (some nt.message.encodedPayload) ++
  (match nt.ident with
   | some i => pack_u8 3 ++ pack_u16be 4 ++ pack_u32be i
   | none => []) ++
  (match nt.message.encodedExpiration with
   | some e => pack_u8 4 ++ pack_u16be 4 ++ pack_u32be e
   | none => []) ++
  (match nt.message.priority with
   | some p => pack_u8 5 ++ pack_u16be 1 ++ pack_u8 p.toNat
   | none => [])

/-- `Notification.frame`: the APNs v2 frame (`pack('!BI', 2, len(content)) +
content`). -/
def Notification.frame (nt : Notification) : List Nat :=
  pack_u8 2 ++ pack_u32be (frameContent nt).length ++ frameContent nt

/-- `Message.notifications(idents)`: one `Notification` per encoded token,
drawing consecutive identifiers from the supplied stream. -/
def Message.notifications (msg : Message) (idents : List (Option Nat)) : List Notification :=
  (msg.encodedTokens.zip idents).map (fun p => ⟨msg, p.1, p.2⟩)

/-! ## apns.py: Feedback -/

/-- `apns.Feedback`: hex token plus the instant (`_epoch + timedelta(seconds=
timestamp)`, represented by the timestamp itself). -/
structure Feedback where
  token : List Char
  whenSec : Nat
deriving DecidableEq, Repr

/-- `Feedback.parse`: one record from the head of a byte string, or `none`
with the buffer untouched when fewer than 6 header bytes or fewer than the
declared token bytes remain. -/
def Feedback.parse (buf : List Nat) : Option Feedback × List Nat :=
  if 6 ≤ buf.length then
    let timestamp := unpack_u32be (buf.take 4)
    let token_len := unpack_u16be ((buf.drop 4).take 2)
    let total_len := 6 + token_len
    if total_len ≤ buf.length then
      (some ⟨hexlify ((buf.drop 6).take token_len), timestamp⟩, buf.drop total_len)
    else (none, buf)
  else (none, buf)

theorem Feedback.parse_some_length {buf : List Nat} {fb : Feedback} {rest : List Nat}
    (h : Feedback.parse buf = (some fb, rest)) : rest.length < buf.length := by
  unfold Feedback.parse at h
  dsimp only at h
  split at h
  · split at h
    · simp only [Prod.mk.injEq] at h
      rw [← h.2]
      simp only [List.length_drop]
      omega
    · simp at h
  · simp at h

/-- `FeedbackThread.process_buffer`: repeatedly parse records off the buffer
until the parser yields `none`, returning the records and the remainder. -/
def parseAll (buf : List Nat) : List Feedback × List Nat :=
  match h : Feedback.parse buf with
  | (some fb, rest) =>
      have : rest.length < buf.length := Feedback.parse_some_length h
      let p := parseAll rest
      (fb :: p.1, p.2)
  | (none, _) => ([], buf)
termination_by buf.length

/-! ## queue.py: NotificationQueue -/

/-- `queue.QueuedNotification`: a notification plus its claim expiration. -/
structure QueuedNotification where
  notification : Notification
  expires : Option Int
deriving DecidableEq, Repr

/-- `QueuedNotification.is_claimed`. -/
def QueuedNotification.is_claimed (qn : QueuedNotification) : Bool :=
  qn.expires.isSome

/-- `queue.NotificationQueue` state: the deque, the `next` cursor, the shared
identifier generator (represented by its count of values yielded so far), the
grace window and the auto-purge deadline. -/
structure QueueState where
  grace : Int
  queue : List QueuedNotification
  next : Nat
  nextIdent : Nat
  autoPurgeAt : Int
deriving DecidableEq, Repr

/-- `NotificationQueue.__init__`. -/
def initQueue (grace : Int) (now : Int) : QueueState :=
  ⟨grace, [], 0, 0, now + grace⟩

/-- `NotificationQueue.claim`. -/
def claim (now : Int) (s : QueueState) : Option Notification × QueueState :=
  if h : s.next < s.queue.length then
    let queued := s.queue.get ⟨s.next, h⟩
    (some queued.notification,
     { s with queue := s.queue.set s.next { queued with expires := some (now + s.grace) },
              next := s.next + 1 })
  else (none, s)

/-- `NotificationQueue.unclaim`. -/
def unclaim (notification : Notification) (s : QueueState) : Bool × QueueState :=
  if 0 < s.next then
    match s.queue[s.next - 1]? with
    | some qn =>
        if qn.notification = notification then
          (true,
           { s with queue := s.queue.set (s.next - 1) { qn with expires := none },
                    next := s.next - 1 })
        else (false, s)
    | none => (false, s)
  else (false, s)

/-- `queue[i].notification.ident == ident` (`False` out of range; a state
satisfying the queue invariant never indexes out of range here). -/
def identMatches (queue : List QueuedNotification) (i : Nat) (ident : Nat) : Bool :=
  match queue[i]? with
  | some qn => qn.notification.ident = some ident
  | none => false

/-- The `while (i > 0) and (queue[i].notification.ident != ident): i -= 1`
loop of `NotificationQueue.backtrack`, started at `i`. -/
def searchBack (queue : List QueuedNotification) (ident : Nat) : Nat → Nat
  | 0 => 0
  | i + 1 => if identMatches queue (i + 1) ident then i + 1 else searchBack queue ident i

/-- `NotificationQueue.backtrack`. -/
def backtrack (ident : Nat) (s : QueueState) : Option Notification × QueueState :=
  let i0 := if 0 < s.next then s.next - 1 else 0
  let i1 := searchBack s.queue ident i0
  let found : Option Notification × Nat :=
    match s.queue[i1]? with
    | some qn =>
        if qn.notification.ident = some ident then (some qn.notification, i1 + 1)
        else (none, i1)
    | none => (none, i1)
  (found.1,
   { s with queue := (s.queue.drop found.2).map (fun qn => { qn with expires := none }),
            next := 0 })

/-- The purge predicate `qn.is_claimed() and (qn.expires <= _now)`. -/
def isExpiredAt (now : Int) (qn : QueuedNotification) : Bool :=
  match qn.expires with
  | some e => e ≤ now
  | none => false

/-- The pop-from-the-front loop of `NotificationQueue.purge_expired`. -/
def purgeLoop (now : Int) : List QueuedNotification → Nat → List QueuedNotification × Nat
  | [], next => ([], next)
  | qn :: rest, next =>
      if isExpiredAt now qn then purgeLoop now rest (next - 1) else (qn :: rest, next)

/-- `NotificationQueue.purge_expired`: returns the recommended delay and the
new state. -/
def purge_expired (now : Int) (s : QueueState) : Int × QueueState :=
  let p := purgeLoop now s.queue s.next
  let delay : Int :=
    match p.1.head? with
    | some qn =>
        match qn.expires with
        | some e => e - now
        | none => s.grace
    | none => s.grace
  (max delay 1, { s with queue := p.1, next := p.2 })

/-- The identifiers `message.notifications(self._idents)` draws for `n`
tokens when the generator has yielded `start` values so far: wrap-around
sequential 32-bit identifiers (`_gen_identifiers`). -/
def identsFrom (start n : Nat) : List (Option Nat) :=
  (List.range n).map (fun k => some ((start + k) % 4294967296))

/-- The body of `NotificationQueue.append` under the lock: expand the message
into queued notifications and extend the deque. -/
def appendCore (msg : Message) (s : QueueState) : QueueState :=
  let n := msg.encodedTokens.length
  { s with
      queue := s.queue ++
        (msg.notifications (identsFrom s.nextIdent n)).map (fun nt => ⟨nt, none⟩),
      nextIdent := s.nextIdent + n }

/-- `NotificationQueue._auto_purge`. -/
def autoPurge (now : Int) (s : QueueState) : QueueState :=
  if s.autoPurgeAt < now then
    let p := purge_expired now s
    { p.2 with autoPurgeAt := now + p.1 }
  else s

/-- `NotificationQueue.append`: extend, then `_auto_purge`. -/
def append (now : Int) (msg : Message) (s : QueueState) : QueueState :=
  autoPurge now (appendCore msg s)

/-! ## backend/threaded.py: error-frame handling -/

/-- `apns.Error`: `(status, message, token)`. -/
structure Error where
  status : Nat
  message : Message
  token : List Char
deriving DecidableEq, Repr

/-- `struct.unpack('!BBI', buf)`: requires exactly six bytes. -/
def parseResponse (buf : List Nat) : Option (Nat × Nat × Nat) :=
  if buf.length = 6 then
    match buf with
    | b0 :: b1 :: rest => some (b0 % 256, b1 % 256, unpack_u32be rest)
    | _ => none
  else none

/-- `ReadThread.handle_response_data` composed with `Backend.delivery_error`:
returns the queue state after the backtrack and the error handed to the
user-supplied error sink, if any. -/
def handle_response_data (buf : List Nat) (s : QueueState) :
    QueueState × Option Error :=
  match parseResponse buf with
  | none => (s, none)
  | some (_, status, ident) =>
      let is_shutdown : Bool := status = 10
      let r := backtrack ident s
      match r.1 with
      | some nt =>
          if is_shutdown then (r.2, none)
          else (r.2, some ⟨status, nt.message, nt.token⟩)
      | none => (r.2, none)

/-! ## The queue invariant (spec §3/§8) -/

/-- Entries at indices `[0, next)` are exactly the claimed entries (non-null
`expires`), and the cursor never passes the end of the deque. -/
def queueInv (s : QueueState) : Prop :=
  s.next ≤ s.queue.length ∧
  ∀ i, (h : i < s.queue.length) →
    ((s.queue.get ⟨i, h⟩).expires.isSome ↔ i < s.next)

instance (s : QueueState) : Decidable (queueInv s) := by
  unfold queueInv
  exact instDecidableAnd

/-! ## Invariant preservation lemmas -/

theorem inv_initQueue (grace now : Int) : queueInv (initQueue grace now) := by
  constructor
  · simp [initQueue]
  · intro i h
    simp [initQueue] at h

theorem inv_claim (now : Int) (s : QueueState) (hs : queueInv s) :
    queueInv (claim now s).2 := by
  obtain ⟨hlen, hinv⟩ := hs
  unfold claim
  split
  · rename_i hlt
    refine ⟨by simpa using hlt, ?_⟩
    intro i h
    simp only [List.length_set] at h
    simp only [List.get_eq_getElem, List.getElem_set]
    by_cases hi : s.next = i
    · subst hi
      simp
    · simp only [if_neg hi]
      have := hinv i h
      simp only [List.get_eq_getElem] at this
      rw [this]
      omega
  · exact ⟨hlen, hinv⟩

theorem inv_unclaim (n : Notification) (s : QueueState) (hs : queueInv s) :
    queueInv (unclaim n s).2 := by
  obtain ⟨hlen, hinv⟩ := hs
  unfold unclaim
  split
  · rename_i hpos
    split
    · rename_i qn hqn
      split
      · refine ⟨by simpa using by omega, ?_⟩
        intro i h
        simp only [List.length_set] at h
        simp only [List.get_eq_getElem, List.getElem_set]
        by_cases hi : s.next - 1 = i
        · subst hi
          simp
        · simp only [if_neg hi]
          have := hinv i h
          simp only [List.get_eq_getElem] at this
          rw [this]
          omega
      · exact ⟨hlen, hinv⟩
    · exact ⟨hlen, hinv⟩
  · exact ⟨hlen, hinv⟩

theorem inv_backtrack (ident : Nat) (s : QueueState) :
    queueInv (backtrack ident s).2 := by
  unfold backtrack
  refine ⟨by simp, ?_⟩
  intro i h
  simp only [List.get_eq_getElem, List.getElem_map]
  simp

theorem purgeLoop_nil (now : Int) (next : Nat) : purgeLoop now [] next = ([], next) := rfl

theorem purgeLoop_cons (now : Int) (qn : QueuedNotification)
    (rest : List QueuedNotification) (next : Nat) :
    purgeLoop now (qn :: rest) next =
      if isExpiredAt now qn then purgeLoop now rest (next - 1) else (qn :: rest, next) := rfl

theorem purgeLoop_inv (now : Int) (q : List QueuedNotification) (next : Nat)
    (hlen : next ≤ q.length)
    (hinv : ∀ i, (h : i < q.length) → ((q.get ⟨i, h⟩).expires.isSome ↔ i < next)) :
    (purgeLoop now q next).2 ≤ (purgeLoop now q next).1.length ∧
    ∀ i, (h : i < (purgeLoop now q next).1.length) →
      (((purgeLoop now q next).1.get ⟨i, h⟩).expires.isSome ↔ i < (purgeLoop now q next).2) := by
  induction q generalizing next with
  | nil => exact ⟨hlen, hinv⟩
  | cons qn rest ih =>
      by_cases hexp : isExpiredAt now qn = true
      · have hclaimed : qn.expires.isSome := by
          unfold isExpiredAt at hexp
          rcases hq : qn.expires with _ | e
          · rw [hq] at hexp; simp at hexp
          · simp [hq]
        have hnextpos : 0 < next := by
          have h0 := hinv 0 (by simp)
          simp only [List.get_eq_getElem, List.getElem_cons_zero] at h0
          exact h0.mp hclaimed
        rw [purgeLoop_cons, if_pos hexp]
        apply ih
        · simp at hlen; omega
        · intro i h
          have := hinv (i + 1) (by simp; omega)
          simp only [List.get_eq_getElem, List.getElem_cons_succ] at this
          simp only [List.get_eq_getElem]
          rw [this]
          omega
      · rw [purgeLoop_cons, if_neg hexp]
        exact ⟨hlen, hinv⟩

theorem inv_purge_expired (now : Int) (s : QueueState) (hs : queueInv s) :
    queueInv (purge_expired now s).2 := by
  obtain ⟨hlen, hinv⟩ := hs
  exact purgeLoop_inv now s.queue s.next hlen hinv

theorem inv_appendCore (msg : Message) (s : QueueState) (hs : queueInv s) :
    queueInv (appendCore msg s) := by
  obtain ⟨hlen, hinv⟩ := hs
  unfold appendCore
  refine ⟨by simp; omega, ?_⟩
  intro i h
  simp only [List.length_append] at h
  simp only [List.get_eq_getElem]
  by_cases hi : i < s.queue.length
  · rw [List.getElem_append_left hi]
    have := hinv i hi
    simp only [List.get_eq_getElem] at this
    exact this
  · rw [List.getElem_append_right (by omega)]
    simp only [List.getElem_map]
    simp
    omega

theorem inv_autoPurge (now : Int) (s : QueueState) (hs : queueInv s) :
    queueInv (autoPurge now s) := by
  unfold autoPurge
  split
  · have := inv_purge_expired now s hs
    exact this
  · exact hs

theorem inv_append (now : Int) (msg : Message) (s : QueueState) (hs : queueInv s) :
    queueInv (append now msg s) :=
  inv_autoPurge now (appendCore msg s) (inv_appendCore msg s hs)

theorem list_set_get_self {α : Type _} (l : List α) (i : Nat) (h : i < l.length) :
    l.set i (l.get ⟨i, h⟩) = l := by
  apply List.ext_getElem
  · simp
  · intro n h1 h2
    rw [List.getElem_set]
    split
    · rename_i he
      subst he
      simp [List.get_eq_getElem]
    · rfl

end ApnsWorker

namespace ApnsWorker

/-! ## Claim theorems -/

/-- C1: For every reachable state of NotificationQueue and after every public
operation (`append`, `claim`, `unclaim`, `backtrack`, `purge_expired`), an
entry at index `i` has a non-null `expires` field iff `i < next`: the entries
at indices `[0, next)` are exactly the claimed entries.  Stated as: the
invariant holds of the initial state and is preserved by every public
operation. -/
theorem notificationQueue_invariant (s : QueueState) (hs : queueInv s)
    (now : Int) (msg : Message) (n : Notification) (ident : Nat) (g t : Int) :
    queueInv (initQueue g t) ∧
    queueInv (append now msg s) ∧
    queueInv (claim now s).2 ∧
    queueInv (unclaim n s).2 ∧
    queueInv (backtrack ident s).2 ∧
    queueInv (purge_expired now s).2 :=
  ⟨inv_initQueue g t, inv_append now msg s hs, inv_claim now s hs,
   inv_unclaim n s hs, inv_backtrack ident s, inv_purge_expired now s hs⟩

/-- A tiny concrete message, notification and queue state used by witnesses. -/
def msgW : Message := ⟨[[1]], [2], none, none⟩

def ntW : Notification := ⟨msgW, [1], some 0⟩

def stateW : QueueState := ⟨5, [⟨ntW, some 3⟩, ⟨ntW, none⟩], 1, 1, 9⟩

theorem notificationQueue_invariant_witness :
    queueInv stateW ∧
    (queueInv (initQueue 5 0) ∧
     queueInv (append 10 msgW stateW) ∧
     queueInv (claim 10 stateW).2 ∧
     queueInv (unclaim ntW stateW).2 ∧
     queueInv (backtrack 0 stateW).2 ∧
     queueInv (purge_expired 10 stateW).2) :=
  ⟨by decide, notificationQueue_invariant stateW (by decide) 10 msgW ntW 0 5 0⟩

/-- C10: For every queue state with at least one unclaimed entry, `claim`
returns a notification `n`, and an immediate `unclaim(n)` returns `true` and
restores the state exactly as it was before the claim. -/
theorem claim_unclaim_roundtrip (now : Int) (s : QueueState)
    (hs : queueInv s) (h : s.next < s.queue.length) :
    ∃ n : Notification, (claim now s).1 = some n ∧
      unclaim n (claim now s).2 = (true, s) := by
  obtain ⟨hlen, hinv⟩ := hs
  refine ⟨(s.queue.get ⟨s.next, h⟩).notification, ?_, ?_⟩
  · unfold claim
    rw [dif_pos h]
  · unfold claim
    rw [dif_pos h]
    unfold unclaim
    dsimp only
    rw [if_pos (by omega : 0 < s.next + 1)]
    have hset : (s.queue.set s.next
        { s.queue.get ⟨s.next, h⟩ with expires := some (now + s.grace) })[s.next + 1 - 1]?
        = some { s.queue.get ⟨s.next, h⟩ with expires := some (now + s.grace) } := by
      simp only [Nat.add_sub_cancel]
      rw [List.getElem?_set]
      simp [h]
    rw [hset]
    dsimp only
    rw [if_pos rfl]
    have hexpires : (s.queue.get ⟨s.next, h⟩).expires = none := by
      have := hinv s.next h
      rcases hq : (s.queue.get ⟨s.next, h⟩).expires with _ | e
      · rfl
      · rw [hq] at this
        simp at this
    have hq2 : { { s.queue.get ⟨s.next, h⟩ with expires := some (now + s.grace) } with
        expires := (none : Option Int) } = s.queue.get ⟨s.next, h⟩ := by
      rw [← hexpires]
    simp only [Nat.add_sub_cancel, List.set_set, hq2, list_set_get_self]

theorem claim_unclaim_roundtrip_witness :
    queueInv stateW ∧ stateW.next < stateW.queue.length ∧
    ∃ n : Notification, (claim 10 stateW).1 = some n ∧
      unclaim n (claim 10 stateW).2 = (true, stateW) :=
  ⟨by decide, by decide, claim_unclaim_roundtrip 10 stateW (by decide) (by decide)⟩

theorem searchBack_finds (q : List QueuedNotification) (ident : Nat) (j : Nat)
    (hmatch : identMatches q j ident = true) :
    ∀ i, j ≤ i → (∀ k, j < k → k ≤ i → identMatches q k ident = false) →
      searchBack q ident i = j := by
  intro i
  induction i with
  | zero =>
      intro hji _
      interval_cases j
      rfl
  | succ i ih =>
      intro hji hnone
      by_cases hm : identMatches q (i + 1) ident = true
      · have hj : j = i + 1 := by
          by_contra hne
          have hf := hnone (i + 1) (by omega) (by omega)
          rw [hf] at hm
          cases hm
        subst hj
        unfold searchBack
        rw [if_pos hm]
      · have hji' : j ≤ i := by
          have : j ≠ i + 1 := by
            intro he
            subst he
            rw [hmatch] at hm
            exact hm rfl
          omega
        unfold searchBack
        rw [if_neg hm]
        exact ih hji' (fun k hk1 hk2 => hnone k hk1 (by omega))

/-- C2: If some entry in the claimed region matches `ident` (with the match
found by the backward search from `next - 1`, i.e. `j` is the largest
matching index below `next`), `backtrack(ident)` returns that entry's
notification, pops entries `[0, j]` off the front, clears `expires` on every
remaining entry and resets `next` to 0. -/
theorem backtrack_found (ident : Nat) (s : QueueState) (hs : queueInv s)
    (j : Nat) (hj : j < s.next) (hjlen : j < s.queue.length)
    (hmatch : (s.queue.get ⟨j, hjlen⟩).notification.ident = some ident)
    (hlast : ∀ k, j < k → k < s.next → identMatches s.queue k ident = false) :
    backtrack ident s =
      (some (s.queue.get ⟨j, hjlen⟩).notification,
       { s with
           queue := (s.queue.drop (j + 1)).map (fun qn => { qn with expires := none }),
           next := 0 }) := by
  obtain ⟨hlen, _⟩ := hs
  have hget : s.queue[j]? = some (s.queue.get ⟨j, hjlen⟩) := by
    rw [List.getElem?_eq_getElem hjlen]
    rfl
  have hmatches : identMatches s.queue j ident = true := by
    unfold identMatches
    rw [hget]
    simp only [List.get_eq_getElem] at hmatch
    simp [hmatch]
  unfold backtrack
  rw [if_pos (by omega : 0 < s.next)]
  dsimp only
  rw [searchBack_finds s.queue ident j hmatches (s.next - 1) (by omega)
    (fun k hk1 hk2 => hlast k hk1 (by omega))]
  rw [hget]
  dsimp only
  rw [if_pos hmatch]

/-- Three queued notifications, the first two claimed: a generic witness
state for the backtrack and purge theorems. -/
def stateC2 : QueueState :=
  ⟨5,
   [⟨⟨msgW, [1], some 1⟩, some 10⟩, ⟨⟨msgW, [2], some 2⟩, some 12⟩,
    ⟨⟨msgW, [3], some 3⟩, none⟩],
   2, 3, 9⟩

theorem backtrack_found_witness :
    (queueInv stateC2 ∧ 1 < stateC2.next ∧ 1 < stateC2.queue.length ∧
     (stateC2.queue.get ⟨1, by decide⟩).notification.ident = some 2) ∧
    backtrack 2 stateC2 =
      (some (stateC2.queue.get ⟨1, by decide⟩).notification,
       { stateC2 with
           queue := (stateC2.queue.drop 2).map (fun qn => { qn with expires := none }),
           next := 0 }) :=
  ⟨⟨by decide, by decide, by decide, by decide⟩,
   backtrack_found 2 stateC2 (by decide) 1 (by decide) (by decide) (by decide)
     (fun k hk1 hk2 => absurd hk2 (by have h2 : stateC2.next = 2 := rfl; omega))⟩

/-- The `next == 0` state refuting C3 as stated: the front (unclaimed) entry
carries the searched identifier, so `backtrack` pops and returns it. -/
def stateC3 : QueueState := ⟨5, [⟨⟨msgW, [1], some 7⟩, none⟩], 0, 1, 9⟩

/-- C3 counterexample: with `next == 0` and ident 7, the claim predicts a
null return and an unchanged queue length, but the code pops the matching
front entry and returns its notification. -/
theorem backtrack_next_zero_counterexample :
    ¬ ((backtrack 7 stateC3).1 = none ∧
       (backtrack 7 stateC3).2.queue.length = stateC3.queue.length) := by
  decide

/-- C3 (amended): with `next == 0` no backward search occurs, `expires` is
cleared on the remaining entries and `next` stays 0; the queue is unchanged
in length with a null return unless the queue is non-empty and its front
entry's ident equals `ident`, in which case that single front entry is popped
and its notification returned. -/
theorem backtrack_next_zero (ident : Nat) (s : QueueState) (h : s.next = 0) :
    (s.queue.head? = none →
       backtrack ident s = (none, { s with queue := [], next := 0 })) ∧
    (∀ qn, s.queue.head? = some qn → ¬(qn.notification.ident = some ident) →
       backtrack ident s =
         (none,
          { s with queue := s.queue.map (fun x => { x with expires := none }),
                   next := 0 })) ∧
    (∀ qn, s.queue.head? = some qn → qn.notification.ident = some ident →
       backtrack ident s =
         (some qn.notification,
          { s with
              queue := (s.queue.drop 1).map (fun x => { x with expires := none }),
              next := 0 })) := by
  have hhead : s.queue[0]? = s.queue.head? := by
    cases s.queue <;> simp
  refine ⟨?_, ?_, ?_⟩
  · intro hnone
    have hnil : s.queue = [] := by
      cases hq : s.queue with
      | nil => rfl
      | cons a l => rw [hq] at hnone; cases hnone
    unfold backtrack
    rw [h, hnil]
    rfl
  · intro qn hqn hne
    unfold backtrack
    rw [h]
    dsimp only
    rw [show searchBack s.queue ident (if 0 < 0 then 0 - 1 else 0) = 0 by rfl]
    rw [hhead, hqn]
    dsimp only
    rw [if_neg hne]
    dsimp only
    rw [List.drop_zero]
  · intro qn hqn hm
    unfold backtrack
    rw [h]
    dsimp only
    rw [show searchBack s.queue ident (if 0 < 0 then 0 - 1 else 0) = 0 by rfl]
    rw [hhead, hqn]
    dsimp only
    rw [if_pos hm]

theorem purgeLoop_drop (now : Int) (q : List QueuedNotification) (next : Nat)
    (hlen : next ≤ q.length)
    (hinv : ∀ i, (h : i < q.length) → ((q.get ⟨i, h⟩).expires.isSome ↔ i < next)) :
    purgeLoop now q next =
      (q.drop (q.takeWhile (isExpiredAt now)).length,
       next - (q.takeWhile (isExpiredAt now)).length) ∧
    (q.takeWhile (isExpiredAt now)).length ≤ next := by
  induction q generalizing next with
  | nil => simp [purgeLoop_nil]
  | cons qn rest ih =>
      by_cases hexp : isExpiredAt now qn = true
      · have hclaimed : qn.expires.isSome := by
          unfold isExpiredAt at hexp
          rcases hq : qn.expires with _ | e
          · rw [hq] at hexp; simp at hexp
          · simp [hq]
        have hnextpos : 0 < next := by
          have h0 := hinv 0 (by simp)
          simp only [List.get_eq_getElem, List.getElem_cons_zero] at h0
          exact h0.mp hclaimed
        have ihr := ih (next - 1) (by simp at hlen; omega)
          (fun i h => by
            have := hinv (i + 1) (by simp; omega)
            simp only [List.get_eq_getElem, List.getElem_cons_succ] at this
            simp only [List.get_eq_getElem]
            rw [this]
            omega)
        rw [purgeLoop_cons, if_pos hexp, List.takeWhile_cons_of_pos hexp]
        refine ⟨?_, by simp; omega⟩
        rw [ihr.1]
        simp only [List.length_cons, List.drop_succ_cons, Prod.mk.injEq]
        exact ⟨trivial, by omega⟩
      · rw [purgeLoop_cons, if_neg hexp, List.takeWhile_cons_of_neg (by simpa using hexp)]
        simp

/-- C4 (amended): `purge_expired` removes from the front the maximal run of
entries that are claimed with `expires ≤ now`, decrementing `next` by the
number removed; it returns `max(1.0, expires − now)` when the resulting front
entry is claimed, and `max(1.0, grace)` (not bare `grace`, which the code
clamps up to 1.0) when the queue is empty or the front entry is unclaimed. -/
theorem purge_expired_spec (now : Int) (s : QueueState) (hs : queueInv s) :
    ((purge_expired now s).2.queue =
       s.queue.drop (s.queue.takeWhile (isExpiredAt now)).length ∧
     (purge_expired now s).2.next =
       s.next - (s.queue.takeWhile (isExpiredAt now)).length ∧
     (s.queue.takeWhile (isExpiredAt now)).length ≤ s.next) ∧
    (∀ qn e, ((purge_expired now s).2.queue).head? = some qn →
       qn.expires = some e → (purge_expired now s).1 = max 1 (e - now)) ∧
    ((((purge_expired now s).2.queue).head? = none ∨
      (∃ qn, ((purge_expired now s).2.queue).head? = some qn ∧ qn.expires = none)) →
     (purge_expired now s).1 = max 1 s.grace) := by
  obtain ⟨hlen, hinv⟩ := hs
  have hd := purgeLoop_drop now s.queue s.next hlen hinv
  refine ⟨⟨?_, ?_, hd.2⟩, ?_, ?_⟩
  · unfold purge_expired
    dsimp only
    rw [hd.1]
  · unfold purge_expired
    dsimp only
    rw [hd.1]
  · intro qn e hh he
    have hq2 : (purge_expired now s).2.queue = (purgeLoop now s.queue s.next).1 := rfl
    rw [hq2] at hh
    unfold purge_expired
    dsimp only
    rw [hh]
    dsimp only
    rw [he]
    exact max_comm _ _
  · intro hcase
    have hq2 : (purge_expired now s).2.queue = (purgeLoop now s.queue s.next).1 := rfl
    rw [hq2] at hcase
    unfold purge_expired
    dsimp only
    rcases hcase with hnone | ⟨qn, hh, he⟩
    · rw [hnone]
      exact max_comm _ _
    · rw [hh]
      dsimp only
      rw [he]
      exact max_comm _ _

/-- A queue whose grace window is below one second: the clamp in
`purge_expired` makes its return value differ from `grace`. -/
def stateC4 : QueueState := ⟨0, [], 0, 0, 9⟩

/-- C4 counterexample: on an empty queue with `grace = 0`, the claim predicts
a return of `grace` (0), but the code returns `max(0, 1.0) = 1.0`. -/
theorem purge_expired_grace_counterexample :
    ¬ ((purge_expired 5 stateC4).1 = stateC4.grace) := by
  decide

theorem purge_expired_spec_witness :
    queueInv stateC2 ∧
    (((purge_expired 11 stateC2).2.queue =
        stateC2.queue.drop (stateC2.queue.takeWhile (isExpiredAt 11)).length ∧
      (purge_expired 11 stateC2).2.next =
        stateC2.next - (stateC2.queue.takeWhile (isExpiredAt 11)).length ∧
      (stateC2.queue.takeWhile (isExpiredAt 11)).length ≤ stateC2.next) ∧
     (∀ qn e, ((purge_expired 11 stateC2).2.queue).head? = some qn →
        qn.expires = some e → (purge_expired 11 stateC2).1 = max 1 (e - 11)) ∧
     ((((purge_expired 11 stateC2).2.queue).head? = none ∨
       (∃ qn, ((purge_expired 11 stateC2).2.queue).head? = some qn ∧
          qn.expires = none)) →
      (purge_expired 11 stateC2).1 = max 1 stateC2.grace)) :=
  ⟨by decide, purge_expired_spec 11 stateC2 (by decide)⟩

theorem pack_bytes_length (n : Nat) (b : List Nat) : (pack_bytes n b).length = n := by
  simp [pack_bytes]
  omega

theorem pack_bytes_of_length_eq (n : Nat) (b : List Nat) (h : b.length = n) :
    pack_bytes n b = b := by
  subst h
  simp [pack_bytes]

theorem frameContent_items (nt : Notification) :
    frameContent nt =
      ([1, 0, 32] ++ pack_bytes 32 nt.encodedToken) ++
      ([2] ++ pack_u16be nt.message.encodedPayload.length ++
        nt.message.encodedPayload) ++
      (match nt.ident with
       | some i => [3, 0, 4] ++ pack_u32be i
       | none => []) ++
      (match nt.message.encodedExpiration with
       | some e => [4, 0, 4] ++ pack_u32be e
       | none => []) ++
      (match nt.message.priority with
       | some p => [5, 0, 1, p.toNat % 256]
       | none => []) := rfl

theorem frameContent_length (nt : Notification) :
    (frameContent nt).length =
      38 + nt.message.encodedPayload.length
        + (if nt.ident.isSome then 7 else 0)
        + (if nt.message.encodedExpiration.isSome then 7 else 0)
        + (if nt.message.priority.isSome then 4 else 0) := by
  rcases nt with ⟨⟨toks, payload, exp, prio⟩, tok, ident⟩
  rcases ident with _ | i <;> rcases exp with _ | e <;> rcases prio with _ | p <;>
    simp [frameContent, packData, pack_u8, pack_u16be, pack_u32be,
      pack_bytes_length] <;> omega

/-- The compact UTF-8 serialisation of the payload
`{"aps":{"badge":1}}` used by the single-token end-to-end scenario. -/
def examplePayload : List Nat :=
  "\x7b\"aps\":\x7b\"badge\":1\x7d\x7d".toList.map Char.toNat

/-- C5: `frame()` is the byte `0x02`, the 32-bit big-endian content length,
then the token item (id 1, declared length 32), payload item (id 2, payload
length), and the identifier (id 3, length 4), expiration (id 4, length 4) and
priority (id 5, length 1) items exactly when set; for a one-token message
with payload `{"aps":{"badge":1}}` and no ident/expiration/priority the frame
is `02 00 00 00 39 01 00 20 <token> 02 00 13 <payload>`. -/
theorem frame_layout :
    (∀ nt : Notification,
       nt.frame =
         [2] ++
         pack_u32be (38 + nt.message.encodedPayload.length
           + (if nt.ident.isSome then 7 else 0)
           + (if nt.message.encodedExpiration.isSome then 7 else 0)
           + (if nt.message.priority.isSome then 4 else 0)) ++
         (([1, 0, 32] ++ pack_bytes 32 nt.encodedToken) ++
          ([2] ++ pack_u16be nt.message.encodedPayload.length ++
            nt.message.encodedPayload) ++
          (match nt.ident with
           | some i => [3, 0, 4] ++ pack_u32be i
           | none => []) ++
          (match nt.message.encodedExpiration with
           | some e => [4, 0, 4] ++ pack_u32be e
           | none => []) ++
          (match nt.message.priority with
           | some p => [5, 0, 1, p.toNat % 256]
           | none => []))) ∧
    (∀ tok : List Nat, tok.length = 32 →
       Notification.frame ⟨⟨[tok], examplePayload, none, none⟩, tok, none⟩ =
         [2, 0, 0, 0, 57, 1, 0, 32] ++ tok ++ [2, 0, 19] ++ examplePayload) := by
  constructor
  · intro nt
    rw [show nt.frame =
        pack_u8 2 ++ pack_u32be (frameContent nt).length ++ frameContent nt from rfl]
    rw [frameContent_length, ← frameContent_items]
    rfl
  · intro tok htok
    rw [show Notification.frame ⟨⟨[tok], examplePayload, none, none⟩, tok, none⟩ =
        pack_u8 2 ++
          pack_u32be (frameContent ⟨⟨[tok], examplePayload, none, none⟩, tok, none⟩).length ++
          frameContent ⟨⟨[tok], examplePayload, none, none⟩, tok, none⟩ from rfl]
    rw [frameContent_length, frameContent_items]
    dsimp only
    rw [pack_bytes_of_length_eq 32 tok htok]
    have hp : examplePayload.length = 19 := by decide
    rw [hp]
    simp [pack_u8, pack_u16be, pack_u32be]

theorem frame_layout_witness :
    (List.replicate 32 17).length = 32 ∧
    Notification.frame
        ⟨⟨[List.replicate 32 17], examplePayload, none, none⟩,
         List.replicate 32 17, none⟩ =
      [2, 0, 0, 0, 57, 1, 0, 32] ++ List.replicate 32 17 ++ [2, 0, 19] ++
        examplePayload :=
  ⟨by decide, frame_layout.2 (List.replicate 32 17) (by decide)⟩

/-- C6: For a 6-byte server frame parsing as `(command, status, ident)`, the
new queue state is exactly the state after `backtrack(ident)` (invoked once);
no user-visible error is emitted when `status == 10`; otherwise an
`Error(status, message, token)` is handed to the error sink exactly when
`backtrack(ident)` returned a notification. -/
theorem handle_response_spec (buf : List Nat) (s : QueueState)
    (command status ident : Nat)
    (hparse : parseResponse buf = some (command, status, ident)) :
    (handle_response_data buf s).1 = (backtrack ident s).2 ∧
    (status = 10 → (handle_response_data buf s).2 = none) ∧
    (status ≠ 10 →
       (handle_response_data buf s).2 =
         (backtrack ident s).1.map
           (fun nt => ⟨status, nt.message, nt.token⟩)) := by
  unfold handle_response_data
  rw [hparse]
  dsimp only
  rcases hb : (backtrack ident s).1 with _ | nt
  · exact ⟨rfl, fun _ => rfl, fun _ => rfl⟩
  · by_cases h10 : status = 10
    · simp [h10]
    · simp [h10]

theorem handle_response_spec_witness :
    parseResponse [8, 1, 0, 0, 0, 2] = some (8, 1, 2) ∧
    ((handle_response_data [8, 1, 0, 0, 0, 2] stateC2).1 =
       (backtrack 2 stateC2).2 ∧
     ((1 : Nat) = 10 → (handle_response_data [8, 1, 0, 0, 0, 2] stateC2).2 = none) ∧
     ((1 : Nat) ≠ 10 →
        (handle_response_data [8, 1, 0, 0, 0, 2] stateC2).2 =
          (backtrack 2 stateC2).1.map
            (fun nt => ⟨1, nt.message, nt.token⟩))) :=
  ⟨by decide, handle_response_spec [8, 1, 0, 0, 0, 2] stateC2 8 1 2 (by decide)⟩

theorem validateTokens_isSome (tokens : List (List Char)) :
    (validateTokens tokens).isSome ↔ ∀ t ∈ tokens, (unhexlify t).isSome := by
  induction tokens with
  | nil => simp [validateTokens]
  | cons t ts ih =>
      rw [show validateTokens (t :: ts) =
            (unhexlify t).bind
              (fun e => (validateTokens ts).bind (fun rest => some (e :: rest)))
          from rfl]
      rcases hu : unhexlify t with _ | e
      · simp [hu]
      · rcases hv : validateTokens ts with _ | es <;> rw [hv] at ih <;>
          simp_all [List.forall_mem_cons]

/-- C8: `Message` construction (with a valid priority) succeeds exactly when
every token is valid hex, with no constraint on decoded length; and on the
wire the token item always declares length 32 and carries exactly 32 bytes:
the decoded token zero-padded to 32, or truncated at 32. -/
theorem message_token_validation :
    (∀ tokens payload exp prio, priorityOk prio →
       ((mkMessage tokens payload exp prio).isSome ↔
        ∀ t ∈ tokens, (unhexlify t).isSome)) ∧
    (∀ nt : Notification,
       (nt.frame.drop 5).take 35 =
         [1, 0, 32] ++ (nt.encodedToken.take 32 ++
           List.replicate (32 - nt.encodedToken.length) 0) ∧
       (nt.encodedToken.take 32 ++
         List.replicate (32 - nt.encodedToken.length) 0).length = 32) := by
  constructor
  · intro tokens payload exp prio hp
    unfold mkMessage
    rcases hv : validateTokens tokens with _ | es
    · rw [← validateTokens_isSome]
      simp [hv]
    · rw [← validateTokens_isSome]
      simp [hv, hp]
  · intro nt
    constructor
    · rw [show nt.frame =
          (pack_u8 2 ++ pack_u32be (frameContent nt).length) ++ frameContent nt by
        simp [Notification.frame]]
      rw [show (5 : Nat) =
          (pack_u8 2 ++ pack_u32be (frameContent nt).length).length from rfl]
      rw [List.drop_left]
      rw [frameContent_items]
      rw [show ([1, 0, 32] ++ pack_bytes 32 nt.encodedToken) ++
            ([2] ++ pack_u16be nt.message.encodedPayload.length ++
              nt.message.encodedPayload) ++
            (match nt.ident with
             | some i => [3, 0, 4] ++ pack_u32be i
             | none => []) ++
            (match nt.message.encodedExpiration with
             | some e => [4, 0, 4] ++ pack_u32be e
             | none => []) ++
            (match nt.message.priority with
             | some p => [5, 0, 1, p.toNat % 256]
             | none => []) =
          ([1, 0, 32] ++ pack_bytes 32 nt.encodedToken) ++
            (([2] ++ pack_u16be nt.message.encodedPayload.length ++
              nt.message.encodedPayload) ++
            ((match nt.ident with
             | some i => [3, 0, 4] ++ pack_u32be i
             | none => []) ++
            ((match nt.message.encodedExpiration with
             | some e => [4, 0, 4] ++ pack_u32be e
             | none => []) ++
            (match nt.message.priority with
             | some p => [5, 0, 1, p.toNat % 256]
             | none => [])))) by
        simp [List.append_assoc]]
      rw [show (35 : Nat) =
          ([1, 0, 32] ++ pack_bytes 32 nt.encodedToken).length by
        simp [pack_bytes_length]]
      rw [List.take_left]
      rfl
    · simp [List.length_replicate]
      omega

theorem message_token_validation_witness :
    priorityOk (some 5) ∧
    ((mkMessage [['a', 'b']] [1] none (some 5)).isSome ↔
       ∀ t ∈ [['a', 'b']], (unhexlify t).isSome) :=
  ⟨by decide, message_token_validation.1 [['a', 'b']] [1] none (some 5) (by decide)⟩

/-- The `Message` built from an empty token list (payload bytes `[2]`). -/
def emptyMsgW : Message := ⟨[], [2], none, none⟩

/-- A state whose auto-purge deadline has passed and whose single claimed
entry has expired: appending even an empty message purges it. -/
def stateC9 : QueueState := ⟨5, [⟨ntW, some 3⟩, ⟨ntW, none⟩], 1, 1, 2⟩

/-- C9 counterexample: construction from an empty token list succeeds and
yields zero notifications, but appending that message does change the entry
sequence and cursor: the append triggers the opportunistic auto-purge, which
drops the expired claimed front entry. -/
theorem append_empty_counterexample :
    mkMessage [] [2] none none = some emptyMsgW ∧
    emptyMsgW.notifications (identsFrom stateC9.nextIdent 0) = [] ∧
    ¬ ((append 10 emptyMsgW stateC9).queue = stateC9.queue ∧
       (append 10 emptyMsgW stateC9).next = stateC9.next) := by
  refine ⟨by decide, by decide, ?_⟩
  decide

/-- C9 (amended): `Message` construction succeeds on an empty token list;
such a message generates zero notifications; appending it adds no entries
(the extend under the lock leaves the state untouched), and the whole append
equals the opportunistic auto-purge alone: when `now` has not passed the
auto-purge deadline the entry sequence and `next` are exactly unchanged. -/
theorem append_empty_message (payload : List Nat) (exp : Option Nat)
    (prio : Option Int) (h : priorityOk prio) :
    ∃ msg : Message, mkMessage [] payload exp prio = some msg ∧
      msg.encodedTokens = [] ∧
      (∀ idents, msg.notifications idents = []) ∧
      (∀ s : QueueState, appendCore msg s = s) ∧
      (∀ s : QueueState, ∀ now : Int, append now msg s = autoPurge now s) ∧
      (∀ s : QueueState, ∀ now : Int, ¬ s.autoPurgeAt < now →
         append now msg s = s) := by
  refine ⟨⟨[], payload, exp, prio⟩, ?_, rfl, ?_, ?_, ?_, ?_⟩
  · unfold mkMessage
    rw [show validateTokens [] = some [] from rfl]
    dsimp only
    rw [if_pos h]
  · intro idents
    simp [Message.notifications]
  · intro s
    rcases s with ⟨g, q, nx, ni, ap⟩
    simp [appendCore, Message.notifications, identsFrom]
  · intro s now
    unfold append
    congr 1
    rcases s with ⟨g, q, nx, ni, ap⟩
    simp [appendCore, Message.notifications, identsFrom]
  · intro s now hnp
    unfold append
    rw [show appendCore ⟨[], payload, exp, prio⟩ s = s by
      rcases s with ⟨g, q, nx, ni, ap⟩
      simp [appendCore, Message.notifications, identsFrom]]
    unfold autoPurge
    rw [if_neg hnp]

theorem append_empty_message_witness :
    priorityOk (none : Option Int) ∧
    ∃ msg : Message, mkMessage [] [2] none none = some msg ∧
      msg.encodedTokens = [] ∧
      (∀ idents, msg.notifications idents = []) ∧
      (∀ s : QueueState, appendCore msg s = s) ∧
      (∀ s : QueueState, ∀ now : Int, append now msg s = autoPurge now s) ∧
      (∀ s : QueueState, ∀ now : Int, ¬ s.autoPurgeAt < now →
         append now msg s = s) :=
  ⟨trivial, append_empty_message [2] none none trivial⟩

/-! ## Feedback stream lemmas (C7) -/

/-- A well-formed feedback record `(timestamp, token bytes)`: the fields fit
their wire widths. -/
def recordWF (r : Nat × List Nat) : Prop :=
  r.1 < 4294967296 ∧ r.2.length < 65536

instance (r : Nat × List Nat) : Decidable (recordWF r) := by
  unfold recordWF
  exact instDecidableAnd

/-- The wire form of one feedback record:
`<u32 timestamp BE><u16 token length BE><token bytes>`. -/
def encodeRecord (ts : Nat) (token : List Nat) : List Nat :=
  pack_u32be ts ++ pack_u16be token.length ++ token

/-- Concatenation of the wire forms of a record sequence. -/
def encodeRecords (rs : List (Nat × List Nat)) : List Nat :=
  (rs.map (fun r => encodeRecord r.1 r.2)).flatten

/-- The `Feedback` value the parser produces for a record. -/
def feedbackOf (r : Nat × List Nat) : Feedback := ⟨hexlify r.2, r.1⟩

theorem pack_u32be_length (n : Nat) : (pack_u32be n).length = 4 := rfl

theorem pack_u16be_length (n : Nat) : (pack_u16be n).length = 2 := rfl

theorem unpack_pack_u32 (n : Nat) (h : n < 4294967296) :
    unpack_u32be (pack_u32be n) = n := by
  simp only [unpack_u32be, pack_u32be, List.foldl]
  omega

theorem unpack_pack_u16 (n : Nat) (h : n < 65536) :
    unpack_u16be (pack_u16be n) = n := by
  simp only [unpack_u16be, pack_u16be, List.foldl]
  omega

theorem parse_encode (ts : Nat) (token rest : List Nat)
    (hts : ts < 4294967296) (htl : token.length < 65536) :
    Feedback.parse (encodeRecord ts token ++ rest) =
      (some ⟨hexlify token, ts⟩, rest) := by
  have hbuf : encodeRecord ts token ++ rest =
      (pack_u32be ts ++ pack_u16be token.length) ++ (token ++ rest) := by
    simp [encodeRecord]
  have hlen6 : (pack_u32be ts ++ pack_u16be token.length).length = 6 := rfl
  rw [hbuf]
  unfold Feedback.parse
  rw [if_pos (by simp [pack_u32be_length, pack_u16be_length]; omega)]
  dsimp only
  have htake4 :
      ((pack_u32be ts ++ pack_u16be token.length) ++ (token ++ rest)).take 4
        = pack_u32be ts := by
    rw [List.append_assoc]
    rw [show (4 : Nat) = (pack_u32be ts).length from rfl]
    exact List.take_left _ _
  have hdrop4 :
      ((pack_u32be ts ++ pack_u16be token.length) ++ (token ++ rest)).drop 4
        = pack_u16be token.length ++ (token ++ rest) := by
    rw [List.append_assoc]
    rw [show (4 : Nat) = (pack_u32be ts).length from rfl]
    exact List.drop_left _ _
  have htake2 : (pack_u16be token.length ++ (token ++ rest)).take 2
      = pack_u16be token.length := by
    rw [show (2 : Nat) = (pack_u16be token.length).length from rfl]
    exact List.take_left _ _
  have hdrop6 :
      ((pack_u32be ts ++ pack_u16be token.length) ++ (token ++ rest)).drop 6
        = token ++ rest := by
    rw [show (6 : Nat) =
        (pack_u32be ts ++ pack_u16be token.length).length from rfl]
    exact List.drop_left _ _
  rw [htake4, hdrop4, htake2, hdrop6, unpack_pack_u32 ts hts,
    unpack_pack_u16 token.length htl]
  rw [if_pos (by simp [pack_u32be_length, pack_u16be_length]; omega)]
  rw [List.take_left]
  have hdroptot :
      ((pack_u32be ts ++ pack_u16be token.length) ++ (token ++ rest)).drop
        (6 + token.length) = rest := by
    rw [← List.append_assoc]
    rw [show 6 + token.length =
        ((pack_u32be ts ++ pack_u16be token.length) ++ token).length by
      simp [pack_u32be_length, pack_u16be_length]; omega]
    exact List.drop_left _ _
  rw [hdroptot]

theorem parse_short (buf : List Nat) (h : buf.length < 6) :
    Feedback.parse buf = (none, buf) := by
  unfold Feedback.parse
  rw [if_neg (by omega)]

/-- Parsing a strictly truncated record yields `none` with the buffer
untouched. -/
theorem parse_truncated (ts : Nat) (token pre : List Nat)
    (_hts : ts < 4294967296) (htl : token.length < 65536)
    (hpre : pre <+: encodeRecord ts token)
    (hlt : pre.length < (encodeRecord ts token).length) :
    Feedback.parse pre = (none, pre) := by
  by_cases hshort : pre.length < 6
  · exact parse_short pre hshort
  · have hEsplit : encodeRecord ts token =
        (pack_u32be ts ++ pack_u16be token.length) ++ token := by
      simp [encodeRecord]
    have hElen : (encodeRecord ts token).length = 6 + token.length := by
      rw [hEsplit]
      simp [pack_u32be_length, pack_u16be_length]
      omega
    have hpreq : pre = (encodeRecord ts token).take pre.length := by
      obtain ⟨t, ht⟩ := hpre
      rw [← ht]
      rw [List.take_append_eq_append_take]
      simp
    have htake4 : pre.take 4 = pack_u32be ts := by
      rw [hpreq, List.take_take, Nat.min_eq_left (by omega), hEsplit,
        List.append_assoc]
      rw [show (4 : Nat) = (pack_u32be ts).length from rfl]
      exact List.take_left _ _
    have hdrop4take2 : (pre.drop 4).take 2 = pack_u16be token.length := by
      rw [hpreq, List.drop_take]
      rw [List.take_take, Nat.min_eq_left (by omega)]
      rw [hEsplit, List.append_assoc]
      rw [show (4 : Nat) = (pack_u32be ts).length from rfl, List.drop_left]
      rw [show (2 : Nat) = (pack_u16be token.length).length from rfl]
      exact List.take_left _ _
    unfold Feedback.parse
    rw [if_pos (by omega)]
    dsimp only
    rw [htake4, hdrop4take2, unpack_pack_u16 token.length htl]
    rw [if_neg (by omega)]

theorem parseAll_some {buf : List Nat} {fb : Feedback} {rest : List Nat}
    (h : Feedback.parse buf = (some fb, rest)) :
    parseAll buf = (fb :: (parseAll rest).1, (parseAll rest).2) := by
  conv_lhs => unfold parseAll
  split
  · rename_i fb2 rest2 heq
    rw [h] at heq
    cases heq
    rfl
  · rename_i r heq
    rw [h] at heq
    cases heq

theorem parseAll_none {buf : List Nat} {r : List Nat}
    (h : Feedback.parse buf = (none, r)) : parseAll buf = ([], buf) := by
  conv_lhs => unfold parseAll
  split
  · rename_i fb2 rest2 heq
    rw [h] at heq
    cases heq
  · rfl

theorem parseAll_records (rs : List (Nat × List Nat)) (tail : List Nat)
    (hwf : ∀ r ∈ rs, recordWF r)
    (htail : Feedback.parse tail = (none, tail)) :
    parseAll (encodeRecords rs ++ tail) = (rs.map feedbackOf, tail) := by
  induction rs with
  | nil =>
      rw [show encodeRecords [] = [] from rfl]
      rw [List.nil_append]
      rw [parseAll_none htail]
      rfl
  | cons r rs ih =>
      have hr := hwf r (by simp)
      have hbuf : encodeRecords (r :: rs) ++ tail =
          encodeRecord r.1 r.2 ++ (encodeRecords rs ++ tail) := by
        simp [encodeRecords, List.append_assoc]
      rw [hbuf]
      rw [parseAll_some (parse_encode r.1 r.2 (encodeRecords rs ++ tail)
        hr.1 hr.2)]
      rw [ih (fun x hx => hwf x (by simp [hx]))]
      rfl

/-- C7: Concatenating the wire forms of `n` well-formed feedback records and
repeatedly parsing yields exactly those records in order with an empty
remainder; with a strict prefix of a further record appended, repeated
parsing yields the complete records and then null, the truncated prefix
returned untouched. -/
theorem feedback_parse_stream (rs : List (Nat × List Nat))
    (hwf : ∀ r ∈ rs, recordWF r) :
    parseAll (encodeRecords rs) = (rs.map feedbackOf, []) ∧
    (∀ ts : Nat, ∀ token pre : List Nat, recordWF (ts, token) →
       pre <+: encodeRecord ts token →
       pre.length < (encodeRecord ts token).length →
       parseAll (encodeRecords rs ++ pre) = (rs.map feedbackOf, pre)) := by
  constructor
  · have h := parseAll_records rs [] hwf (parse_short [] (by simp))
    rw [List.append_nil] at h
    exact h
  · intro ts token pre hr hpre hlt
    exact parseAll_records rs pre hwf
      (parse_truncated ts token pre hr.1 hr.2 hpre hlt)

theorem feedback_parse_stream_witness :
    (∀ r ∈ [((5 : Nat), [(171 : Nat)]), (0, [])], recordWF r) ∧
    (recordWF (7, [1, 2]) ∧ [0, 0, 0, 7, 0, 2, 1] <+: encodeRecord 7 [1, 2] ∧
     ([0, 0, 0, 7, 0, 2, 1] : List Nat).length <
       (encodeRecord 7 [1, 2]).length) ∧
    parseAll (encodeRecords [(5, [171]), (0, [])]) =
      ([feedbackOf (5, [171]), feedbackOf (0, [])], []) ∧
    parseAll (encodeRecords [(5, [171]), (0, [])] ++ [0, 0, 0, 7, 0, 2, 1]) =
      ([feedbackOf (5, [171]), feedbackOf (0, [])], [0, 0, 0, 7, 0, 2, 1]) :=
  ⟨by decide, ⟨by decide, by decide, by decide⟩,
   (feedback_parse_stream [(5, [171]), (0, [])] (by decide)).1,
   (feedback_parse_stream [(5, [171]), (0, [])] (by decide)).2 7 [1, 2]
     [0, 0, 0, 7, 0, 2, 1] (by decide) (by decide) (by decide)⟩

theorem backtrack_next_zero_witness :
    stateC3.next = 0 ∧
    ((stateC3.queue.head? = none →
        backtrack 7 stateC3 = (none, { stateC3 with queue := [], next := 0 })) ∧
     (∀ qn, stateC3.queue.head? = some qn → ¬(qn.notification.ident = some 7) →
        backtrack 7 stateC3 =
          (none,
           { stateC3 with
               queue := stateC3.queue.map (fun x => { x with expires := none }),
               next := 0 })) ∧
     (∀ qn, stateC3.queue.head? = some qn → qn.notification.ident = some 7 →
        backtrack 7 stateC3 =
          (some qn.notification,
           { stateC3 with
               queue := (stateC3.queue.drop 1).map (fun x => { x with expires := none }),
               next := 0 }))) :=
  ⟨rfl, backtrack_next_zero 7 stateC3 rfl⟩

end ApnsWorker

